import Mathlib

/-!
Verification of the capability-gated action scheduler of the zippy
randomized-scenario test framework, together with the `PeekCancellation`
action from `misc/python/materialize/zippy/peek_actions.py`.

The repository fragment contains a single concrete action
(`PeekCancellation`); the surrounding framework (`Capability`, `State`,
`Action`, the scheduler loop) is described by the design specification and
is modelled here from that specification.  The concrete action's
`requires` set and `run` body are embedded directly from the source file.
-/

namespace Zippy

/-- Modelled from the spec: the framework class `Capability`
(`materialize.zippy.framework.Capability`, not in the inspected sources).
A capability is an immutable typed fact: a type tag plus optional
parameters, comparable by `(type, parameters)`. -/
structure Capability where
  ctype : String
  params : List String
deriving DecidableEq, Repr

/-- Modelled from the spec: the framework class `State`
(`materialize.zippy.framework.State`, not in the inspected sources).
It owns the set of currently held capabilities plus scenario-wide
configuration; the source action reads the configuration field
`mz_service` from it. -/
structure State where
  caps : Finset Capability
  mz_service : String
deriving DecidableEq

/-- Modelled from the spec: `State.has` — membership test on the
capability set. -/
def State.has (s : State) (c : Capability) : Bool :=
  c ∈ s.caps

/-- Modelled from the spec: `State.add` — insert a capability;
idempotent set insertion. -/
def State.add (s : State) (c : Capability) : State :=
  { s with caps := insert c s.caps }

/-- Modelled from the spec: `State.remove` — remove a capability;
idempotent set removal. -/
def State.remove (s : State) (c : Capability) : State :=
  { s with caps := s.caps.erase c }

/-- Modelled from the spec: the set of capability *types* currently held
by a `State`, used for legality filtering of actions. -/
def State.heldTypes (s : State) : Finset String :=
  s.caps.image Capability.ctype

/-- Modelled from the spec: a catalog entry for an `Action`
(`materialize.zippy.framework.Action`, not in the inspected sources):
a name and the set of capability types its `requires()` returns. -/
structure ActionSpec where
  name : String
  requires : Finset String
deriving DecidableEq

/-- Modelled from the spec: the three-way `Outcome` of an action's `run`
(Success / ExpectedFailure / FatalError); each non-fatal outcome carries
the declared capability deltas (added, removed). -/
inductive Outcome where
  | success (added removed : List Capability)
  | expectedFailure (added removed : List Capability)
  | fatalError
deriving DecidableEq

/-- The capability deltas carried by an outcome: `some (added, removed)`
for the two non-fatal outcomes, `none` for `fatalError`.  The scheduler
consumes an `Outcome` only through this discriminant. -/
def Outcome.deltas : Outcome → Option (List Capability × List Capability)
  | .success added removed => some (added, removed)
  | .expectedFailure added removed => some (added, removed)
  | .fatalError => none

/-- Modelled from the spec: legality of an action in a state — its
required capability types are a subset of the currently held types. -/
def legalFor (a : ActionSpec) (s : State) : Prop :=
  a.requires ⊆ s.heldTypes

instance (a : ActionSpec) (s : State) : Decidable (legalFor a s) :=
  inferInstanceAs (Decidable (a.requires ⊆ s.heldTypes))

/-- Modelled from the spec: step 1 of the scheduler algorithm — the legal
subset of the catalog in the current state, in catalog order. -/
def legalSubset (catalog : List ActionSpec) (s : State) : List ActionSpec :=
  catalog.filter (fun a => decide (legalFor a s))

/-- Modelled from the spec: step 5 of the scheduler algorithm — apply the
declared capability deltas to the state: first add every declared added
capability, then remove every declared removed capability, in that order,
through the `State.add` / `State.remove` mutators. -/
def applyDeltas (s : State) (added removed : List Capability) : State :=
  removed.foldl State.remove (added.foldl State.add s)

/-- Modelled from the spec: the seeded pseudo-random generator threaded
through the scheduler.  A linear congruential step; the draw is taken
from the high bits of the new seed.  Returns (draw, next seed). -/
def rngNext (seed : Nat) : Nat × Nat :=
  let s := (seed * 1103515245 + 12345) % 2 ^ 31
  (s / 2 ^ 16, s)

/-- Modelled from the spec: terminal reasons of a scenario run — step
budget exhausted, no legal action (stalled), or a fatal outcome. -/
inductive TermReason where
  | budgetExhausted
  | stalled
  | fatalError
deriving DecidableEq

/-- One executed step of a scenario run: the state immediately before
execution, the selected action, its outcome, the wall-clock instant the
step started at, and the state after the deltas were applied. -/
structure StepRecord where
  before : State
  action : ActionSpec
  outcome : Outcome
  startedAt : Nat
  after : State
deriving DecidableEq

/-- The result of a scenario run: the executed steps in order, the final
state, and the terminal reason. -/
structure RunResult where
  trace : List StepRecord
  final : State
  reason : TermReason
deriving DecidableEq

/-- Modelled from the spec: the outcome oracle standing for the external
`Composition` driver — what outcome the selected action's `run` reports at
a given step index. -/
abbrev Env := Nat → ActionSpec → Outcome

/-- Placeholder action used only as the default of a positional lookup
that is never taken out of range. -/
def defaultAction : ActionSpec :=
  { name := "", requires := ∅ }

/-- Modelled from the spec: the scheduler loop (§4.4), not in the
inspected sources.  Per step: compute the legal subset; if empty,
terminate stalled; otherwise draw from the seeded generator, select a
legal action, execute it (ask the oracle for its outcome), on a non-fatal
outcome apply the declared deltas and continue, on `fatalError` terminate
immediately with the state unchanged.  `dur` gives each step's wall-clock
duration; `time` is the running wall clock, which the selection never
reads. -/
def runSteps (catalog : List ActionSpec) (env : Env) (dur : Nat → Nat) :
    Nat → Nat → Nat → Nat → State → RunResult
  | 0, _, _, _, s => ⟨[], s, .budgetExhausted⟩
  | fuel + 1, step, seed, time, s =>
    let legal := legalSubset catalog s
    if legal = [] then
      ⟨[], s, .stalled⟩
    else
      let draw := (rngNext seed).1
      let seed2 := (rngNext seed).2
      let a := legal.getD (draw % legal.length) defaultAction
      match (env step a).deltas with
      | none => ⟨[⟨s, a, env step a, time, s⟩], s, .fatalError⟩
      | some d =>
        let s2 := applyDeltas s d.1 d.2
        let rest := runSteps catalog env dur fuel (step + 1) seed2 (time + dur step) s2
        ⟨⟨s, a, env step a, time, s2⟩ :: rest.trace, rest.final, rest.reason⟩

/-- Modelled from the spec: a whole scenario run — budget many steps at
most, starting at step index 0. -/
def runScenario (catalog : List ActionSpec) (env : Env) (dur : Nat → Nat)
    (budget seed startTime : Nat) (s : State) : RunResult :=
  runSteps catalog env dur budget 0 seed startTime s

/-- The externally visible (selected action, outcome) pairs of a run. -/
def RunResult.pairs (r : RunResult) : List (ActionSpec × Outcome) :=
  r.trace.map (fun rec => (rec.action, rec.outcome))

/-! ## The concrete action `PeekCancellation`, embedded from
`misc/python/materialize/zippy/peek_actions.py`. -/

/-- A call to the external driver's `testdrive` entry point: the script it
is given and the `mz_service` keyword argument. -/
structure TestdriveCall where
  script : String
  mz_service : String
deriving DecidableEq

/-- The testdrive script issued by `PeekCancellation.run`, after
`textwrap.dedent`: the common 20-space margin is stripped and the
whitespace-only trailing line is normalized to empty. -/
def peekCancellationScript : String :=
  "\n> DROP TABLE IF EXISTS peek_cancellation;\n> CREATE TABLE IF NOT EXISTS peek_cancellation (f1 INTEGER);\n> INSERT INTO peek_cancellation SELECT generate_series(1, 1000);\n\n> SET statement_timeout = \x2710ms\x27;\n\n! INSERT INTO peek_cancellation\n  SELECT 1 FROM peek_cancellation AS a1, peek_cancellation AS a2, peek_cancellation AS a3;\ncontains: timeout\n"

/-- `PeekCancellation.requires`, embedded from the source: the classmethod
returns the set `\x7bBalancerdIsRunning, MzIsRunning\x7d` of capability
types. -/
def PeekCancellation.requires : Finset String :=
  {"BalancerdIsRunning", "MzIsRunning"}

/-- `PeekCancellation.run`, embedded from the source: it issues exactly
one `Composition.testdrive` call carrying the fixed script and the
state's `mz_service` field, and returns with the state unchanged.  The
opaque external driver is represented by the list of calls issued to
it. -/
def PeekCancellation.run (state : State) : List TestdriveCall × State :=
  ([{ script := peekCancellationScript, mz_service := state.mz_service }], state)

/-- The catalog entry of `PeekCancellation`. -/
def peekCancellationAction : ActionSpec :=
  { name := "PeekCancellation", requires := PeekCancellation.requires }

/-! ## The two-action reference scenario of the specification. -/

/-- The capability `X` of the reference scenario. -/
def capX : Capability :=
  { ctype := "X", params := [] }

/-- Action `A` of the reference scenario: requires nothing. -/
def actionA : ActionSpec :=
  { name := "A", requires := ∅ }

/-- Action `B` of the reference scenario: requires capability type `X`. -/
def actionB : ActionSpec :=
  { name := "B", requires := {"X"} }

/-- The reference catalog `\x7bA, B\x7d`. -/
def exampleCatalog : List ActionSpec :=
  [actionA, actionB]

/-- The outcome oracle of the reference scenario: `A` succeeds and
provides `X`; `B` succeeds, provides nothing and consumes `X` (the
specification's trace has the state become empty again after `B`). -/
def exampleEnv : Env := fun _ a =>
  if a.name = "A" then .success [capX] [] else .success [] [capX]

/-- The initial state of the reference scenario: no capabilities. -/
def exampleInit : State :=
  { caps := ∅, mz_service := "materialized" }

/-- The stall scenario of the specification: one action requiring the
never-held capability type `Y`. -/
def stallCatalog : List ActionSpec :=
  [{ name := "A", requires := {"Y"} }]

/-! ## Helper lemmas. -/

theorem getD_mem_of_lt {α : Type} (l : List α) (i : Nat) (d : α)
    (h : i < l.length) : l.getD i d ∈ l := by
  rw [List.getD_eq_getElem l d h]
  exact List.getElem_mem h

theorem mem_legalSubset {catalog : List ActionSpec} {s : State}
    {a : ActionSpec} (h : a ∈ legalSubset catalog s) : legalFor a s := by
  rw [legalSubset] at h
  exact of_decide_eq_true (List.mem_filter.mp h).2

theorem selected_legal (catalog : List ActionSpec) (s : State) (i : Nat)
    (h : ¬ legalSubset catalog s = []) :
    legalFor ((legalSubset catalog s).getD (i % (legalSubset catalog s).length) defaultAction) s := by
  have hlen : 0 < (legalSubset catalog s).length := List.length_pos.2 h
  have hi := Nat.mod_lt i hlen
  exact mem_legalSubset (getD_mem_of_lt _ _ _ hi)

theorem caps_foldl_add (l : List Capability) (s : State) :
    (l.foldl State.add s).caps = s.caps ∪ l.toFinset := by
  induction l generalizing s with
  | nil => simp
  | cons a l ih =>
    simp only [List.foldl_cons, ih, State.add, List.toFinset_cons,
      Finset.insert_union, Finset.union_insert]

theorem mz_foldl_add (l : List Capability) (s : State) :
    (l.foldl State.add s).mz_service = s.mz_service := by
  induction l generalizing s with
  | nil => rfl
  | cons a l ih => simpa [State.add] using ih (s.add a)

theorem caps_foldl_remove (l : List Capability) (s : State) :
    (l.foldl State.remove s).caps = s.caps \ l.toFinset := by
  induction l generalizing s with
  | nil => simp
  | cons a l ih =>
    simp only [List.foldl_cons, ih, State.remove, List.toFinset_cons]
    ext c
    simp only [Finset.mem_sdiff, Finset.mem_erase, Finset.mem_insert]
    tauto

theorem mz_foldl_remove (l : List Capability) (s : State) :
    (l.foldl State.remove s).mz_service = s.mz_service := by
  induction l generalizing s with
  | nil => rfl
  | cons a l ih => simpa [State.remove] using ih (s.remove a)

theorem applyDeltas_caps (s : State) (added removed : List Capability) :
    (applyDeltas s added removed).caps =
      (s.caps ∪ added.toFinset) \ removed.toFinset := by
  rw [applyDeltas, caps_foldl_remove, caps_foldl_add]

theorem applyDeltas_mz (s : State) (added removed : List Capability) :
    (applyDeltas s added removed).mz_service = s.mz_service := by
  rw [applyDeltas, mz_foldl_remove, mz_foldl_add]

theorem mem_applyDeltas (s : State) (added removed : List Capability)
    (c : Capability) :
    c ∈ (applyDeltas s added removed).caps ↔
      (c ∈ s.caps ∨ c ∈ added) ∧ c ∉ removed := by
  rw [applyDeltas_caps]
  simp [Finset.mem_sdiff, Finset.mem_union]

/-- The state a step leaves behind, as a function of the state before it
and the outcome: deltas applied on a non-fatal outcome, unchanged on a
fatal one. -/
def stepAfter (before : State) (o : Outcome) : State :=
  match o.deltas with
  | some d => applyDeltas before d.1 d.2
  | none => before

theorem runSteps_trace_spec (catalog : List ActionSpec) (env : Env) (dur : Nat → Nat) :
    ∀ fuel step seed time s,
      ∀ r ∈ (runSteps catalog env dur fuel step seed time s).trace,
        legalFor r.action r.before ∧ r.after = stepAfter r.before r.outcome := by
  intro fuel
  induction fuel with
  | zero =>
    intro step seed time s r hr
    simp [runSteps] at hr
  | succ n ih =>
    intro step seed time s r hr
    simp only [runSteps] at hr
    by_cases hleg : legalSubset catalog s = []
    · rw [if_pos hleg] at hr
      simp at hr
    · rw [if_neg hleg] at hr
      cases hd : (env step ((legalSubset catalog s).getD
          ((rngNext seed).1 % (legalSubset catalog s).length) defaultAction)).deltas with
      | none =>
        rw [hd] at hr
        simp only [List.mem_singleton] at hr
        subst hr
        refine ⟨selected_legal catalog s _ hleg, ?_⟩
        simp only [stepAfter]
        rw [hd]
      | some d =>
        rw [hd] at hr
        simp only [List.mem_cons] at hr
        rcases hr with hr | hr
        · subst hr
          refine ⟨selected_legal catalog s _ hleg, ?_⟩
          simp only [stepAfter]
          rw [hd]
        · exact ih (step + 1) (rngNext seed).2 (time + dur step) _ r hr

theorem getLast?_cons_of_eq_some {α : Type} {l : List α} {x r : α}
    (h : l.getLast? = some r) : (x :: l).getLast? = some r := by
  cases l with
  | nil => simp at h
  | cons b t => rw [List.getLast?_cons_cons]; exact h

theorem runSteps_fatal_spec (catalog : List ActionSpec) (env : Env) (dur : Nat → Nat) :
    ∀ fuel step seed time s,
      ∀ r ∈ (runSteps catalog env dur fuel step seed time s).trace,
        r.outcome.deltas = none →
          (runSteps catalog env dur fuel step seed time s).final = r.before ∧
          r.after = r.before ∧
          (runSteps catalog env dur fuel step seed time s).trace.getLast? = some r ∧
          (runSteps catalog env dur fuel step seed time s).reason = .fatalError := by
  intro fuel
  induction fuel with
  | zero =>
    intro step seed time s r hr
    simp [runSteps] at hr
  | succ n ih =>
    intro step seed time s r hr hfat
    simp only [runSteps] at hr ⊢
    by_cases hleg : legalSubset catalog s = []
    · rw [if_pos hleg] at hr
      simp at hr
    · rw [if_neg hleg] at hr ⊢
      cases hd : (env step ((legalSubset catalog s).getD
          ((rngNext seed).1 % (legalSubset catalog s).length) defaultAction)).deltas with
      | none =>
        rw [hd] at hr
        simp only [List.mem_singleton] at hr
        subst hr
        exact ⟨rfl, rfl, rfl, rfl⟩
      | some d =>
        rw [hd] at hr
        simp only [List.mem_cons] at hr
        rcases hr with hr | hr
        · subst hr
          rw [hd] at hfat
          exact Option.noConfusion hfat
        · obtain ⟨h1, h2, h3, h4⟩ := ih (step + 1) (rngNext seed).2 (time + dur step) _ r hr hfat
          exact ⟨h1, h2, getLast?_cons_of_eq_some h3, h4⟩

theorem runSteps_time_inv (catalog : List ActionSpec) (env : Env) (d1 d2 : Nat → Nat) :
    ∀ fuel step seed s t1 t2,
      ((runSteps catalog env d1 fuel step seed t1 s).trace.map
          (fun r => (r.before, r.action, r.outcome, r.after)) =
        (runSteps catalog env d2 fuel step seed t2 s).trace.map
          (fun r => (r.before, r.action, r.outcome, r.after))) ∧
      (runSteps catalog env d1 fuel step seed t1 s).final =
        (runSteps catalog env d2 fuel step seed t2 s).final ∧
      (runSteps catalog env d1 fuel step seed t1 s).reason =
        (runSteps catalog env d2 fuel step seed t2 s).reason := by
  intro fuel
  induction fuel with
  | zero =>
    intro step seed s t1 t2
    exact ⟨rfl, rfl, rfl⟩
  | succ n ih =>
    intro step seed s t1 t2
    simp only [runSteps]
    by_cases hleg : legalSubset catalog s = []
    · rw [if_pos hleg, if_pos hleg]
      exact ⟨rfl, rfl, rfl⟩
    · rw [if_neg hleg, if_neg hleg]
      cases hd : (env step ((legalSubset catalog s).getD
          ((rngNext seed).1 % (legalSubset catalog s).length) defaultAction)).deltas with
      | none =>
        exact ⟨rfl, rfl, rfl⟩
      | some d =>
        obtain ⟨h1, h2, h3⟩ := ih (step + 1) (rngNext seed).2 _ (t1 + d1 step) (t2 + d2 step)
        exact ⟨by simpa using h1, h2, h3⟩

theorem runSteps_discriminant_only (catalog : List ActionSpec) (env1 env2 : Env)
    (henv : ∀ i a, (env1 i a).deltas = (env2 i a).deltas) (d1 d2 : Nat → Nat) :
    ∀ fuel step seed s t1 t2,
      ((runSteps catalog env1 d1 fuel step seed t1 s).trace.map
          (fun r => (r.before, r.action, r.after)) =
        (runSteps catalog env2 d2 fuel step seed t2 s).trace.map
          (fun r => (r.before, r.action, r.after))) ∧
      (runSteps catalog env1 d1 fuel step seed t1 s).final =
        (runSteps catalog env2 d2 fuel step seed t2 s).final ∧
      (runSteps catalog env1 d1 fuel step seed t1 s).reason =
        (runSteps catalog env2 d2 fuel step seed t2 s).reason := by
  intro fuel
  induction fuel with
  | zero =>
    intro step seed s t1 t2
    exact ⟨rfl, rfl, rfl⟩
  | succ n ih =>
    intro step seed s t1 t2
    simp only [runSteps]
    by_cases hleg : legalSubset catalog s = []
    · rw [if_pos hleg, if_pos hleg]
      exact ⟨rfl, rfl, rfl⟩
    · rw [if_neg hleg, if_neg hleg]
      have henv2 := (henv step ((legalSubset catalog s).getD
          ((rngNext seed).1 % (legalSubset catalog s).length) defaultAction)).symm
      cases hd : (env1 step ((legalSubset catalog s).getD
          ((rngNext seed).1 % (legalSubset catalog s).length) defaultAction)).deltas with
      | none =>
        rw [hd] at henv2
        rw [henv2]
        exact ⟨rfl, rfl, rfl⟩
      | some d =>
        rw [hd] at henv2
        rw [henv2]
        obtain ⟨h1, h2, h3⟩ := ih (step + 1) (rngNext seed).2 _ (t1 + d1 step) (t2 + d2 step)
        exact ⟨by simpa using h1, h2, h3⟩

/-! ## Claim theorems. -/

/-- C1: Legality invariant — at every step of a scenario run, the action
selected for execution has `requires()` a subset of the state's held
capability types immediately before that execution; the scheduler never
executes an action whose required capability types are not all held. -/
theorem legality_invariant (catalog : List ActionSpec) (env : Env) (dur : Nat → Nat)
    (budget seed startTime : Nat) (s : State) :
    ∀ r ∈ (runScenario catalog env dur budget seed startTime s).trace,
      r.action.requires ⊆ r.before.heldTypes := by
  intro r hr
  exact (runSteps_trace_spec catalog env dur budget 0 seed startTime s r hr).1

/-- Witness for C1: in the two-action reference run, the second executed
step selects `B` with capability type `X` held before it. -/
theorem legality_invariant_witness :
    actionB.requires ⊆ (State.mk {capX} "materialized").heldTypes :=
  legality_invariant exampleCatalog exampleEnv (fun _ => 0) 2 42 0 exampleInit
    ⟨State.mk {capX} "materialized", actionB, .success [] [capX], 0, exampleInit⟩
    (by decide)

/-- C2: Effect invariant with apply order — whenever an executed action's
outcome is Success or ExpectedFailure, the resulting state is exactly the
declared deltas applied to the preceding state, adds first, then removes;
every declared added (and not also removed) capability is present, every
declared removed capability is absent, and no capability outside the
declared deltas changes. -/
theorem effect_invariant (catalog : List ActionSpec) (env : Env) (dur : Nat → Nat)
    (budget seed startTime : Nat) (s : State) :
    ∀ r ∈ (runScenario catalog env dur budget seed startTime s).trace,
      ∀ added removed,
        (r.outcome = .success added removed ∨ r.outcome = .expectedFailure added removed) →
          r.after = applyDeltas r.before added removed ∧
          (∀ c ∈ added, c ∉ removed → c ∈ r.after.caps) ∧
          (∀ c ∈ removed, c ∉ r.after.caps) ∧
          (∀ c, c ∉ added → c ∉ removed → (c ∈ r.after.caps ↔ c ∈ r.before.caps)) := by
  intro r hr added removed hout
  have hafter := (runSteps_trace_spec catalog env dur budget 0 seed startTime s r hr).2
  have hdel : r.outcome.deltas = some (added, removed) := by
    rcases hout with h | h <;> rw [h] <;> rfl
  rw [stepAfter, hdel] at hafter
  refine ⟨hafter, ?_, ?_, ?_⟩
  · intro c hc hnc
    rw [hafter, mem_applyDeltas]
    exact ⟨Or.inr hc, hnc⟩
  · intro c hc
    rw [hafter, mem_applyDeltas]
    rintro ⟨-, hn⟩
    exact hn hc
  · intro c hca hcr
    rw [hafter, mem_applyDeltas]
    constructor
    · rintro ⟨h | h, -⟩
      · exact h
      · exact absurd h hca
    · intro h
      exact ⟨Or.inl h, hcr⟩

/-- Witness for C2: the first step of the reference run succeeds with
deltas (add `[X]`, remove `[]`) and the claimed effect holds there. -/
theorem effect_invariant_witness :
    State.mk {capX} "materialized" = applyDeltas exampleInit [capX] [] ∧
    (∀ c ∈ [capX], c ∉ ([] : List Capability) →
        c ∈ (State.mk {capX} "materialized").caps) ∧
    (∀ c ∈ ([] : List Capability), c ∉ (State.mk {capX} "materialized").caps) ∧
    (∀ c, c ∉ [capX] → c ∉ ([] : List Capability) →
        (c ∈ (State.mk {capX} "materialized").caps ↔ c ∈ exampleInit.caps)) :=
  effect_invariant exampleCatalog exampleEnv (fun _ => 0) 2 42 0 exampleInit
    ⟨exampleInit, actionA, .success [capX] [], 0, State.mk {capX} "materialized"⟩
    (by decide) [capX] [] (Or.inl rfl)

/-- C3: Atomicity on fatal failure — if an executed action's outcome is
FatalError, the run terminates with reason FatalError, the final state
equals the state immediately before that step, none of the step's deltas
are applied, and the fatal step is the last one executed. -/
theorem fatal_atomicity (catalog : List ActionSpec) (env : Env) (dur : Nat → Nat)
    (budget seed startTime : Nat) (s : State) :
    ∀ r ∈ (runScenario catalog env dur budget seed startTime s).trace,
      r.outcome = .fatalError →
        (runScenario catalog env dur budget seed startTime s).reason = .fatalError ∧
        (runScenario catalog env dur budget seed startTime s).final = r.before ∧
        r.after = r.before ∧
        (runScenario catalog env dur budget seed startTime s).trace.getLast? = some r := by
  intro r hr hout
  have hdel : r.outcome.deltas = none := by rw [hout]; rfl
  obtain ⟨h1, h2, h3, h4⟩ :=
    runSteps_fatal_spec catalog env dur budget 0 seed startTime s r hr hdel
  exact ⟨h4, h1, h2, h3⟩

/-- Witness for C3: with an oracle that always reports FatalError, the
run of the reference catalog stops after its first step with the state
unchanged. -/
theorem fatal_atomicity_witness :
    (runScenario exampleCatalog (fun _ _ => Outcome.fatalError) (fun _ => 0)
        1 42 0 exampleInit).reason = .fatalError ∧
    (runScenario exampleCatalog (fun _ _ => Outcome.fatalError) (fun _ => 0)
        1 42 0 exampleInit).final = exampleInit ∧
    exampleInit = exampleInit ∧
    (runScenario exampleCatalog (fun _ _ => Outcome.fatalError) (fun _ => 0)
        1 42 0 exampleInit).trace.getLast? =
      some ⟨exampleInit, actionA, .fatalError, 0, exampleInit⟩ :=
  fatal_atomicity exampleCatalog (fun _ _ => Outcome.fatalError) (fun _ => 0)
    1 42 0 exampleInit ⟨exampleInit, actionA, .fatalError, 0, exampleInit⟩
    (by decide) rfl

/-- C4: Determinism of runs — for every catalog, outcome oracle, initial
state, seed and budget, two runs with those identical inputs produce an
identical sequence of (selected action, outcome) pairs, the same final
state and the same terminal reason, regardless of the wall-clock start
instant and of the wall-clock duration of each step. -/
theorem determinism (catalog : List ActionSpec) (env : Env) (budget seed : Nat)
    (s : State) (t1 t2 : Nat) (d1 d2 : Nat → Nat) (r1 r2 : RunResult)
    (h1 : r1 = runScenario catalog env d1 budget seed t1 s)
    (h2 : r2 = runScenario catalog env d2 budget seed t2 s) :
    r1.pairs = r2.pairs ∧ r1.final = r2.final ∧ r1.reason = r2.reason := by
  subst h1 h2
  obtain ⟨ht, hf, hrr⟩ := runSteps_time_inv catalog env d1 d2 budget 0 seed s t1 t2
  refine ⟨?_, hf, hrr⟩
  have hmap := congrArg
    (List.map (fun q : State × ActionSpec × Outcome × State => (q.2.1, q.2.2.1))) ht
  simpa [RunResult.pairs, List.map_map, Function.comp] using hmap

/-- Witness for C4: two runs of the reference scenario started at
different wall-clock instants with different step durations agree on
pairs, final state and reason. -/
theorem determinism_witness :
    (runScenario exampleCatalog exampleEnv (fun _ => 0) 2 42 0 exampleInit).pairs =
      (runScenario exampleCatalog exampleEnv (fun _ => 1) 2 42 7 exampleInit).pairs ∧
    (runScenario exampleCatalog exampleEnv (fun _ => 0) 2 42 0 exampleInit).final =
      (runScenario exampleCatalog exampleEnv (fun _ => 1) 2 42 7 exampleInit).final ∧
    (runScenario exampleCatalog exampleEnv (fun _ => 0) 2 42 0 exampleInit).reason =
      (runScenario exampleCatalog exampleEnv (fun _ => 1) 2 42 7 exampleInit).reason :=
  determinism exampleCatalog exampleEnv 2 42 exampleInit 0 7 (fun _ => 0) (fun _ => 1)
    _ _ rfl rfl

/-- C5: Stall detection — if at any step the legal subset is empty, the
run terminates at that step with the distinct terminal reason stalled and
executes zero further actions; in particular, with a catalog holding only
an action requiring `Y` and an initial state not holding `Y`, the run
terminates immediately as stalled with zero actions executed, and
stalled is not conflated with budget exhaustion. -/
theorem stall_detection :
    (∀ (catalog : List ActionSpec) (env : Env) (dur : Nat → Nat)
        (fuel step seed time : Nat) (s : State),
        legalSubset catalog s = [] →
        runSteps catalog env dur (fuel + 1) step seed time s = ⟨[], s, .stalled⟩) ∧
    (∀ (env : Env) (dur : Nat → Nat) (budget seed time : Nat),
        0 < budget →
        runScenario stallCatalog env dur budget seed time exampleInit =
          ⟨[], exampleInit, .stalled⟩) ∧
    TermReason.stalled ≠ TermReason.budgetExhausted := by
  refine ⟨?_, ?_, by decide⟩
  · intro catalog env dur fuel step seed time s h
    simp only [runSteps]
    rw [if_pos h]
  · intro env dur budget seed time hb
    cases budget with
    | zero => simp at hb
    | succ n =>
      show runSteps stallCatalog env dur (n + 1) 0 seed time exampleInit = _
      simp only [runSteps]
      rw [if_pos (by decide)]

/-- Witness for C5: a concrete stalled run of the stall catalog. -/
theorem stall_detection_witness :
    runScenario stallCatalog (fun _ _ => Outcome.fatalError) (fun _ => 0) 3 42 0 exampleInit =
      ⟨[], exampleInit, .stalled⟩ :=
  stall_detection.2.1 (fun _ _ => Outcome.fatalError) (fun _ => 0) 3 42 0 (by decide)

/-- C6: Idempotent set semantics of the state mutators — adding an
already-held capability and removing an absent one leave the state
unchanged and raise no error, and the capability set never holds
duplicate entries for the same (type, parameters) pair. -/
theorem idempotent_mutators :
    (∀ (s : State) (c : Capability), s.has c = true → s.add c = s) ∧
    (∀ (s : State) (c : Capability), s.has c = false → s.remove c = s) ∧
    (∀ s : State, s.caps.val.Nodup) := by
  refine ⟨?_, ?_, fun s => s.caps.nodup⟩
  · intro s c h
    have hc : c ∈ s.caps := of_decide_eq_true h
    simp only [State.add]
    rw [Finset.insert_eq_self.2 hc]
  · intro s c h
    have hc : c ∉ s.caps := of_decide_eq_false h
    simp only [State.remove]
    rw [Finset.erase_eq_self.2 hc]

/-- Witness for C6: adding the held `X` and removing the absent `X` are
both no-ops on concrete states. -/
theorem idempotent_mutators_witness :
    (State.mk {capX} "materialized").add capX = State.mk {capX} "materialized" ∧
    exampleInit.remove capX = exampleInit :=
  ⟨idempotent_mutators.1 (State.mk {capX} "materialized") capX (by decide),
   idempotent_mutators.2.1 exampleInit capX (by decide)⟩

/-- C7: `run` returns a three-way Outcome — every `Outcome` is exactly
one of Success, ExpectedFailure or FatalError, the non-fatal outcomes
carry their declared capability deltas, and the scheduler's control flow
reacts only to the discriminant: it behaves identically on Success and on
ExpectedFailure with the same deltas, never inspecting anything else. -/
theorem outcome_three_way :
    (∀ o : Outcome, (∃ added removed, o = .success added removed) ∨
        (∃ added removed, o = .expectedFailure added removed) ∨ o = .fatalError) ∧
    (∀ added removed, (Outcome.success added removed).deltas = some (added, removed) ∧
        (Outcome.expectedFailure added removed).deltas = some (added, removed)) ∧
    Outcome.fatalError.deltas = none ∧
    (∀ (catalog : List ActionSpec) (d1 d2 : Nat → Nat)
        (fuel step seed t1 t2 : Nat) (s : State) (added removed : List Capability),
        ((runSteps catalog (fun _ _ => .success added removed) d1 fuel step seed t1 s).trace.map
            (fun r => (r.before, r.action, r.after)) =
          (runSteps catalog (fun _ _ => .expectedFailure added removed) d2 fuel step seed t2 s).trace.map
            (fun r => (r.before, r.action, r.after))) ∧
        (runSteps catalog (fun _ _ => .success added removed) d1 fuel step seed t1 s).final =
          (runSteps catalog (fun _ _ => .expectedFailure added removed) d2 fuel step seed t2 s).final ∧
        (runSteps catalog (fun _ _ => .success added removed) d1 fuel step seed t1 s).reason =
          (runSteps catalog (fun _ _ => .expectedFailure added removed) d2 fuel step seed t2 s).reason) := by
  refine ⟨?_, fun added removed => ⟨rfl, rfl⟩, rfl, ?_⟩
  · intro o
    cases o with
    | success added removed => exact Or.inl ⟨added, removed, rfl⟩
    | expectedFailure added removed => exact Or.inr (Or.inl ⟨added, removed, rfl⟩)
    | fatalError => exact Or.inr (Or.inr rfl)
  · intro catalog d1 d2 fuel step seed t1 t2 s added removed
    exact runSteps_discriminant_only catalog (fun _ _ => .success added removed)
      (fun _ _ => .expectedFailure added removed) (fun _ _ => rfl) d1 d2 fuel step seed s t1 t2

/-- C8: `requires()` is pure and total — the embedded
`PeekCancellation.requires` is the fixed set of the two capability types
from the source, and an action whose `requires()` is the empty set is
legal in every state, hence in every step's legal subset it belongs
to. -/
theorem requires_pure_always_legal :
    PeekCancellation.requires = {"BalancerdIsRunning", "MzIsRunning"} ∧
    (∀ (a : ActionSpec) (s : State), a.requires = ∅ → legalFor a s) ∧
    (∀ (catalog : List ActionSpec) (s : State) (a : ActionSpec),
        a ∈ catalog → a.requires = ∅ → a ∈ legalSubset catalog s) := by
  refine ⟨rfl, ?_, ?_⟩
  · intro a s h
    rw [legalFor, h]
    exact Finset.empty_subset _
  · intro catalog s a ha h
    rw [legalSubset]
    refine List.mem_filter.2 ⟨ha, decide_eq_true ?_⟩
    rw [legalFor, h]
    exact Finset.empty_subset _

/-- Witness for C8: action `A` (empty requirements) is legal in the empty
initial state and belongs to the legal subset there. -/
theorem requires_pure_always_legal_witness :
    legalFor actionA exampleInit ∧ actionA ∈ legalSubset exampleCatalog exampleInit :=
  ⟨requires_pure_always_legal.2.1 actionA exampleInit rfl,
   requires_pure_always_legal.2.2 exampleCatalog exampleInit actionA (by decide) rfl⟩

/-- C9: Reference trace of the two-action example — with catalog
`\x7bA, B\x7d`, empty initial state and a 2-step budget, step 1's legal
subset is exactly `[A]`, `A` executes and the state becomes `\x7bX\x7d`;
step 2's legal subset is exactly `[A, B]`, the seeded draw selects `B`,
and the state becomes empty again; the run terminates with reason budget
exhausted, not stalled. -/
theorem reference_trace :
    legalSubset exampleCatalog exampleInit = [actionA] ∧
    legalSubset exampleCatalog (State.mk {capX} "materialized") = [actionA, actionB] ∧
    (runScenario exampleCatalog exampleEnv (fun _ => 0) 2 42 0 exampleInit).trace.map
        StepRecord.action = [actionA, actionB] ∧
    (runScenario exampleCatalog exampleEnv (fun _ => 0) 2 42 0 exampleInit).trace.map
        StepRecord.after = [State.mk {capX} "materialized", exampleInit] ∧
    (runScenario exampleCatalog exampleEnv (fun _ => 0) 2 42 0 exampleInit).final =
      exampleInit ∧
    (runScenario exampleCatalog exampleEnv (fun _ => 0) 2 42 0 exampleInit).reason =
      .budgetExhausted ∧
    (runScenario exampleCatalog exampleEnv (fun _ => 0) 2 42 0 exampleInit).reason ≠
      .stalled := by
  decide

/-- C10: `PeekCancellation.run` depends on the state only through
`mz_service` — two states agreeing on `mz_service` produce the same
single `testdrive` call with the same fixed script and the same
`mz_service` argument, and `run` does not mutate the state. -/
theorem run_uses_only_mz_service :
    (∀ s1 s2 : State, s1.mz_service = s2.mz_service →
        (PeekCancellation.run s1).1 = (PeekCancellation.run s2).1) ∧
    (∀ s : State, (PeekCancellation.run s).1 =
        [{ script := peekCancellationScript, mz_service := s.mz_service }]) ∧
    (∀ s : State, (PeekCancellation.run s).2 = s) := by
  refine ⟨?_, fun s => rfl, fun s => rfl⟩
  intro s1 s2 h
  simp only [PeekCancellation.run]
  rw [h]

/-- Witness for C10: two distinct states with equal `mz_service` yield
the same testdrive call list. -/
theorem run_uses_only_mz_service_witness :
    (PeekCancellation.run exampleInit).1 =
      (PeekCancellation.run (State.mk {capX} "materialized")).1 :=
  run_uses_only_mz_service.1 exampleInit (State.mk {capX} "materialized") rfl

end Zippy
